import Mathlib

/-!
Verification of the dynarray repository: a typed dynamic array
(`src/inc/dynarray.hpp`, class `dynarray<T>`) and an opaque handle-based
dynamic array (`src/src/cdynarray.c`).

Shallow embedding conventions:
* the typed backing store `T *mp_array` of `capacity` slots becomes a
  `List α` of that length; a `NULL` backing pointer only arises from an
  allocation failure, which is not modelled (allocation always succeeds),
  so the pointer null-checks in the source are always true here;
* `size_t` indices and sizes become `Nat`;
* zero/value initialization (`new T[n]{}`, `calloc`, `= {0}`) becomes the
  `default` value of an `Inhabited` element type;
* functions returning a success `bool` while mutating the object become
  functions returning `Bool × state`;
* the opaque container stores raw bytes with a fixed `element_size`; every
  copy in the source is element-aligned and an element-multiple long, so the
  byte buffer is modelled at element granularity as a `List α` (one abstract
  value per `element_size`-byte slot), with byte offsets
  `element_size * index` becoming list indices.
-/

/-! ## Typed container, from src/inc/dynarray.hpp -/

/-- State of `dynarray<T>`: backing array, capacity of the backing array,
and the logical size (fields `mp_array`, `m_capacity`, `m_size`). -/
structure dynarray (α : Type) where
  mp_array : List α
  m_capacity : Nat
  m_size : Nat
deriving DecidableEq

/-- Constructor `dynarray<T>::dynarray(size_t size)`: allocates `size`
zero-initialized elements and sets both capacity and logical size to `size`.
(The `new (nothrow)` failure branch, which leaves capacity and size 0, is not
modelled: allocation always succeeds in the embedding.) -/
def dynarray.construct (α : Type) [Inhabited α] (size : Nat) : dynarray α :=
  { mp_array := List.replicate size default
    m_capacity := size
    m_size := size }

/-- Member `dynarray<T>::get_element(size_t index)`: returns `mp_array[index]`
when the backing array is non-null and `index < m_size`; otherwise returns the
default-initialized local `T retVal`. -/
def dynarray.get_element {α : Type} [Inhabited α] (a : dynarray α) (index : Nat) : α :=
  if index < a.m_size then a.mp_array.getD index default else default

/-- Member `dynarray<T>::set_element(size_t index, T element)`: stores the
element and returns true when the backing array is non-null and
`index < m_size`; otherwise returns false. -/
def dynarray.set_element {α : Type} (a : dynarray α) (index : Nat) (element : α) :
    Bool × dynarray α :=
  if index < a.m_size then
    (true, { a with mp_array := a.mp_array.set index element })
  else
    (false, a)

/-- The resize-branch copy loop of `dynarray<T>::insert_element`:
`for (size_t i = 0, j = 0; i < m_capacity; ++i, ++j) { if (i == index) ++j;
new_array[j] = mp_array[i]; }` starting from the zero-initialized
`new T[new_capacity]{}`. The fold state is `(new_array, j)` and `m` is the
loop bound `m_capacity`. -/
def growPass {α : Type} [Inhabited α] (old : List α) (index newcap m : Nat) :
    List α × Nat :=
  (List.range m).foldl
    (fun st i =>
      let j := if i = index then st.2 + 1 else st.2
      (st.1.set j (old.getD i default), j + 1))
    (List.replicate newcap default, 0)

/-- The spare-capacity shift loop of `dynarray<T>::insert_element`:
`T temp = element; ... for (size_t i = index; i < m_size; ++i)
swap(mp_array[i], temp);` where `m_size` has already been incremented, so the
loop visits `n = m_size + 1 - index` indices. The fold state is
`(mp_array, temp)` and `swap` becomes a simultaneous pair update. -/
def shiftPass {α : Type} [Inhabited α] (index n : Nat) (arr : List α) (element : α) :
    List α × α :=
  (List.range' index n).foldl
    (fun st i => (st.1.set i st.2, st.1.getD i default))
    (arr, element)

/-- Member `dynarray<T>::insert_element(size_t index, T element)`.
When `index <= m_size`: if the array is full (`m_size == m_capacity`) it is
reallocated at `new_capacity = (m_capacity == 0) ? 1 : 2 * m_capacity` and the
old contents are copied around the insertion point (`growPass`), otherwise the
tail is shifted right in place (`shiftPass`). The function returns `true` on
every path except a reallocation failure (not modelled: allocation always
succeeds); in particular an out-of-range `index > m_size` falls through to the
final `return true` without touching the array. -/
def dynarray.insert_element {α : Type} [Inhabited α] (a : dynarray α) (index : Nat)
    (element : α) : Bool × dynarray α :=
  if index ≤ a.m_size then
    if a.m_size = a.m_capacity then
      let new_capacity := if a.m_capacity = 0 then 1 else 2 * a.m_capacity
      let copied := growPass a.mp_array index new_capacity a.m_capacity
      (true, { mp_array := copied.1.set index element
               m_capacity := new_capacity
               m_size := a.m_size + 1 })
    else
      let shifted := shiftPass index (a.m_size + 1 - index) a.mp_array element
      (true, { a with mp_array := shifted.1, m_size := a.m_size + 1 })
  else
    (true, a)

/-- The left-shift loop of `dynarray<T>::delete_element`:
`for (size_t i = index; i < m_size; ++i) swap(mp_array[i], mp_array[i + 1]);`
where `m_size` has already been decremented, so the loop visits
`n = (m_size - 1) - index` indices. `swap` becomes two simultaneous updates. -/
def siftPass {α : Type} [Inhabited α] (index n : Nat) (arr : List α) : List α :=
  (List.range' index n).foldl
    (fun arr i =>
      (arr.set i (arr.getD (i + 1) default)).set (i + 1) (arr.getD i default))
    arr

/-- Member `dynarray<T>::delete_element(size_t index)`: when `m_size > 0` and
`index < m_size`, clears `mp_array[index] = {0}` to the default value,
decrements the size, left-shifts the tail by pairwise swaps (`siftPass`), and
returns true; otherwise returns false. -/
def dynarray.delete_element {α : Type} [Inhabited α] (a : dynarray α) (index : Nat) :
    Bool × dynarray α :=
  if a.m_size > 0 ∧ index < a.m_size then
    let cleared := a.mp_array.set index default
    let sifted := siftPass index (a.m_size - 1 - index) cleared
    (true, { a with mp_array := sifted, m_size := a.m_size - 1 })
  else
    (false, a)

/-- Member `dynarray<T>::array_capacity()`. -/
def dynarray.array_capacity {α : Type} (a : dynarray α) : Nat :=
  a.m_capacity

/-- Member `dynarray<T>::array_size()`. -/
def dynarray.array_size {α : Type} (a : dynarray α) : Nat :=
  a.m_size

/-- Member `dynarray<T>::is_empty()`. -/
def dynarray.is_empty {α : Type} (a : dynarray α) : Bool :=
  a.m_size == 0

/-- Well-formedness of a `dynarray` state: the backing list has exactly
`m_capacity` slots and the logical size fits within the capacity. This is the
invariant established by the constructor and maintained by every operation. -/
def dynarray.WF {α : Type} (a : dynarray α) : Prop :=
  a.mp_array.length = a.m_capacity ∧ a.m_size ≤ a.m_capacity

/-! ## Opaque container, from src/src/cdynarray.c -/

/-- Struct `_DYNARRAY_METADATA`: capacity, element size in bytes, logical
size, and the backing array (modelled at element granularity). A
`DYNARRAY_HANDLE` is a pointer to this record; the claims below quantify over
non-null handles, so the handle is modelled as the record itself and the
null-handle early-outs of the source are not reachable. -/
structure DYNARRAY_METADATA (α : Type) where
  capacity : Nat
  element_size : Nat
  logical_size : Nat
  p_backing_array : List α
deriving DecidableEq

/-- Function `init_array(num_elements, element_size)`: allocates a
zero-initialized backing array (`calloc`) and sets capacity, logical size to
`num_elements` and the element size to `element_size`. (The two allocation
failure paths return a null handle and are not modelled.) -/
def init_array (α : Type) [Inhabited α] (num_elements element_size : Nat) :
    DYNARRAY_METADATA α :=
  { capacity := num_elements
    element_size := element_size
    logical_size := num_elements
    p_backing_array := List.replicate num_elements default }

/-- Function `set_element(handle, index, p_data)`: when the backing array is
non-null and `index < capacity`, copies `element_size` bytes from `p_data`
into slot `index` and returns true; otherwise returns false. -/
def DYNARRAY_METADATA.set_element {α : Type} (m : DYNARRAY_METADATA α) (index : Nat)
    (p_data : α) : Bool × DYNARRAY_METADATA α :=
  if index < m.capacity then
    (true, { m with p_backing_array := m.p_backing_array.set index p_data })
  else
    (false, m)

/-- Function `get_element(handle, index, p_data)`: when the backing array is
non-null and `index < capacity`, copies slot `index` into `*p_data` and
returns true; otherwise returns false leaving `*p_data` untouched. Modelled as
`some` of the copied element on success and `none` on failure. -/
def DYNARRAY_METADATA.get_element {α : Type} [Inhabited α] (m : DYNARRAY_METADATA α)
    (index : Nat) : Option α :=
  if index < m.capacity then some (m.p_backing_array.getD index default) else none

/-- Function `copy_elements(p_source_data, source_index, p_dest_data,
dest_index, element_size, num_elements)`: a single `memcpy` of
`element_size * num_elements` bytes from offset `source_index * element_size`
of the source buffer to offset `dest_index * element_size` of the destination
buffer, i.e. `num_elements` consecutive slots. The source buffer stays fixed
while the destination is rebuilt, matching `memcpy` on the two distinct
buffers it is applied to. A read past the end of the source (undefined
behaviour in C) yields the default value here. -/
def copy_elements {α : Type} [Inhabited α] (p_source_data : List α) (source_index : Nat)
    (p_dest_data : List α) (dest_index : Nat) (element_size num_elements : Nat) :
    List α :=
  (List.range num_elements).foldl
    (fun dst k => dst.set (dest_index + k) (p_source_data.getD (source_index + k) default))
    p_dest_data

/-- Modelled from the spec: the macro `CALCULATE_NEW_CAPACITY` comes from
`common_utils.h`, which is not among the sources; the spec says the opaque
container "grows the buffer following the same doubling policy as the typed
container", i.e. a zero capacity grows to 1 and any other capacity doubles. -/
def CALCULATE_NEW_CAPACITY (capacity : Nat) : Nat :=
  if capacity = 0 then 1 else 2 * capacity

/-- Function `resize_and_insert(handle, index, p_data)`: allocates a
zero-initialized buffer of `CALCULATE_NEW_CAPACITY(capacity)` slots, copies
the old contents around the insertion point in three cases (`index == 0`,
`index == capacity`, middle), updates capacity, increments the logical size
and stores the new element through `set_element`. (The `calloc` failure
branch, which returns false leaving the container unchanged, is not
modelled.) -/
def resize_and_insert {α : Type} [Inhabited α] (m : DYNARRAY_METADATA α) (index : Nat)
    (p_data : α) : Bool × DYNARRAY_METADATA α :=
  let new_capacity := CALCULATE_NEW_CAPACITY m.capacity
  let p_new_backing_array : List α := List.replicate new_capacity default
  let p_new_backing_array :=
    if index = 0 then
      copy_elements m.p_backing_array 0 p_new_backing_array 1 m.element_size
        m.logical_size
    else if index = m.capacity then
      copy_elements m.p_backing_array 0 p_new_backing_array 0 m.element_size
        m.logical_size
    else
      let firstHalf :=
        copy_elements m.p_backing_array 0 p_new_backing_array 0 m.element_size
          (index - 1)
      copy_elements m.p_backing_array (index + 1) firstHalf (index + 1)
        m.element_size m.logical_size
  let updated : DYNARRAY_METADATA α :=
    { m with capacity := new_capacity
             logical_size := m.logical_size + 1
             p_backing_array := p_new_backing_array }
  updated.set_element index p_data

/-- Function `insert_element(handle, index, p_data)` of the opaque container:
`status` starts false; when `index <= logical_size` and the array is full
(`logical_size == capacity`) it delegates to `resize_and_insert`; the
spare-capacity branch of the source contains only a comment and no code, so
`status` stays false and the state is unchanged. -/
def DYNARRAY_METADATA.insert_element {α : Type} [Inhabited α] (m : DYNARRAY_METADATA α)
    (index : Nat) (p_data : α) : Bool × DYNARRAY_METADATA α :=
  if index ≤ m.logical_size then
    if m.logical_size = m.capacity then
      resize_and_insert m index p_data
    else
      (false, m)
  else
    (false, m)

/-- Function `delete_element(handle, index)` of the opaque container: the body
is `return false;` with no other code, so every call returns false and leaves
the container unchanged. -/
def DYNARRAY_METADATA.delete_element {α : Type} (m : DYNARRAY_METADATA α)
    (index : Nat) : Bool × DYNARRAY_METADATA α :=
  (false, m)

/-- Function `array_capacity(handle)` of the opaque container. -/
def DYNARRAY_METADATA.array_capacity {α : Type} (m : DYNARRAY_METADATA α) : Nat :=
  m.capacity

/-- Function `array_size(handle)` of the opaque container. -/
def DYNARRAY_METADATA.array_size {α : Type} (m : DYNARRAY_METADATA α) : Nat :=
  m.logical_size

/-! ## Operation sequences -/

/-- One call of a public mutating operation of the typed container. -/
inductive DynOp (α : Type) where
  | set (index : Nat) (element : α)
  | insert (index : Nat) (element : α)
  | delete (index : Nat)

/-- Apply one mutating operation to a typed container state, keeping the
resulting state (the success flag is discarded). -/
def applyOp {α : Type} [Inhabited α] (a : dynarray α) : DynOp α → dynarray α
  | DynOp.set index element => (a.set_element index element).2
  | DynOp.insert index element => (a.insert_element index element).2
  | DynOp.delete index => (a.delete_element index).2

/-- Run a sequence of mutating operations starting from a freshly constructed
container of the given initial size. -/
def runOps {α : Type} [Inhabited α] (size : Nat) (ops : List (DynOp α)) :
    dynarray α :=
  ops.foldl applyOp (dynarray.construct α size)

/-! ## Checked (Option-valued) variants of every backing-store access -/

/-- A bounds-checked list write: `none` exactly when the index is outside the
list, `some` of the updated list otherwise. -/
def setChecked {α : Type} (l : List α) (i : Nat) (v : α) : Option (List α) :=
  if i < l.length then some (l.set i v) else none

/-- The resize-branch copy loop with every backing-store access checked:
reads of the old array via `List.getElem?` and writes to the new array via
`setChecked`. -/
def growPassChecked {α : Type} [Inhabited α] (old : List α) (index newcap m : Nat) :
    Option (List α × Nat) :=
  (List.range m).foldl
    (fun ost i => ost.bind fun st =>
      (old[i]?).bind fun v =>
        (setChecked st.1 (if i = index then st.2 + 1 else st.2) v).map
          fun l => (l, (if i = index then st.2 + 1 else st.2) + 1))
    (some (List.replicate newcap default, 0))

/-- The spare-capacity shift loop with every access checked. -/
def shiftPassChecked {α : Type} [Inhabited α] (index n : Nat) (arr : List α)
    (element : α) : Option (List α × α) :=
  (List.range' index n).foldl
    (fun ost i => ost.bind fun st =>
      (st.1[i]?).bind fun v =>
        (setChecked st.1 i st.2).map fun l => (l, v))
    (some (arr, element))

/-- The deletion left-shift loop with every access checked. -/
def siftPassChecked {α : Type} [Inhabited α] (index n : Nat) (arr : List α) :
    Option (List α) :=
  (List.range' index n).foldl
    (fun oarr i => oarr.bind fun arr =>
      (arr[i]?).bind fun x =>
        (arr[i + 1]?).bind fun y =>
          (setChecked arr i y).bind fun l => setChecked l (i + 1) x)
    (some arr)


/-- Sample well-formed typed container for witnesses: full, holding
`[1, 2, 3]` with capacity and logical size 3. -/
def sample_full : dynarray Nat :=
  { mp_array := [1, 2, 3], m_capacity := 3, m_size := 3 }

/-- Sample well-formed typed container for witnesses: spare capacity, holding
`[1, 2]` (plus one allocated-but-empty slot) with capacity 3 and logical
size 2. -/
def sample_spare : dynarray Nat :=
  { mp_array := [1, 2, 3], m_capacity := 3, m_size := 2 }

/-! ## List helper lemmas -/

theorem getD_set_self {α : Type} (l : List α) (i : Nat) (v d : α) (h : i < l.length) :
    (l.set i v).getD i d = v := by
  simp [List.getD_eq_getElem?_getD, List.getElem?_set_self h]

theorem getD_set_ne {α : Type} (l : List α) (i j : Nat) (v d : α) (h : i ≠ j) :
    (l.set i v).getD j d = l.getD j d := by
  simp [List.getD_eq_getElem?_getD, List.getElem?_set_ne h]

theorem getD_replicate {α : Type} (n p : Nat) (d : α) :
    (List.replicate n d).getD p d = d := by
  simp [List.getD_eq_getElem?_getD, List.getElem?_replicate]
  split <;> simp

theorem getElem?_eq_some_getD {α : Type} (l : List α) (i : Nat) (d : α) (h : i < l.length) :
    l[i]? = some (l.getD i d) := by
  rw [List.getElem?_eq_getElem h, List.getD_eq_getElem?_getD, List.getElem?_eq_getElem h]
  rfl

/-! ## Unfolding lemmas for the three loops -/

theorem growPass_zero {α : Type} [Inhabited α] (old : List α) (index newcap : Nat) :
    growPass old index newcap 0 = (List.replicate newcap default, 0) :=
  rfl

theorem growPass_succ {α : Type} [Inhabited α] (old : List α) (index newcap m : Nat) :
    growPass old index newcap (m + 1) =
      ((growPass old index newcap m).1.set
          (if m = index then (growPass old index newcap m).2 + 1
           else (growPass old index newcap m).2)
          (old.getD m default),
        (if m = index then (growPass old index newcap m).2 + 1
         else (growPass old index newcap m).2) + 1) := by
  unfold growPass
  rw [List.range_succ, List.foldl_append]
  rfl

theorem shiftPass_zero {α : Type} [Inhabited α] (index : Nat) (arr : List α) (element : α) :
    shiftPass index 0 arr element = (arr, element) :=
  rfl

theorem shiftPass_succ {α : Type} [Inhabited α] (index n : Nat) (arr : List α) (element : α) :
    shiftPass index (n + 1) arr element =
      ((shiftPass index n arr element).1.set (index + n) (shiftPass index n arr element).2,
        (shiftPass index n arr element).1.getD (index + n) default) := by
  unfold shiftPass
  rw [List.range'_concat, Nat.one_mul, List.foldl_append]
  rfl

theorem siftPass_zero {α : Type} [Inhabited α] (index : Nat) (arr : List α) :
    siftPass index 0 arr = arr :=
  rfl

theorem siftPass_succ {α : Type} [Inhabited α] (index n : Nat) (arr : List α) :
    siftPass index (n + 1) arr =
      ((siftPass index n arr).set (index + n)
          ((siftPass index n arr).getD (index + n + 1) default)).set (index + n + 1)
        ((siftPass index n arr).getD (index + n) default) := by
  unfold siftPass
  rw [List.range'_concat, Nat.one_mul, List.foldl_append]
  rfl

theorem growPass_length {α : Type} [Inhabited α] (old : List α) (index newcap : Nat) :
    ∀ m, (growPass old index newcap m).1.length = newcap := by
  intro m
  induction m with
  | zero => simp [growPass_zero]
  | succ m ih => rw [growPass_succ, List.length_set]; exact ih

theorem shiftPass_length {α : Type} [Inhabited α] (index : Nat) (arr : List α) (element : α) :
    ∀ n, (shiftPass index n arr element).1.length = arr.length := by
  intro n
  induction n with
  | zero => rw [shiftPass_zero]
  | succ n ih => rw [shiftPass_succ, List.length_set]; exact ih

theorem siftPass_length {α : Type} [Inhabited α] (index : Nat) (arr : List α) :
    ∀ n, (siftPass index n arr).length = arr.length := by
  intro n
  induction n with
  | zero => rw [siftPass_zero]
  | succ n ih => rw [siftPass_succ, List.length_set, List.length_set]; exact ih

/-! ## Loop characterizations -/

theorem shiftPass_spec {α : Type} [Inhabited α] (index : Nat) (arr : List α)
    (element : α) :
    ∀ n, index + n ≤ arr.length →
      ((shiftPass index n arr element).2 =
        if n = 0 then element else arr.getD (index + n - 1) default) ∧
      (∀ p, (shiftPass index n arr element).1.getD p default =
        if p = index ∧ n ≠ 0 then element
        else if index < p ∧ p < index + n then arr.getD (p - 1) default
        else arr.getD p default) := by
  intro n
  induction n with
  | zero =>
    intro _
    rw [shiftPass_zero]
    refine ⟨rfl, fun p => ?_⟩
    rw [if_neg (by omega : ¬(p = index ∧ (0 : Nat) ≠ 0)),
      if_neg (by omega : ¬(index < p ∧ p < index + 0))]
  | succ n ih =>
    intro hlen
    obtain ⟨ihtemp, iharr⟩ := ih (by omega)
    have hsl : (shiftPass index n arr element).1.length = arr.length :=
      shiftPass_length index arr element n
    have hread : (shiftPass index n arr element).1.getD (index + n) default
        = arr.getD (index + n) default := by
      rw [iharr (index + n)]
      split_ifs <;> first | rfl | (exfalso; omega)
    simp only [shiftPass_succ]
    refine ⟨?_, fun p => ?_⟩
    · rw [hread, if_neg (by omega : ¬(n + 1 = 0))]
      have h : index + (n + 1) - 1 = index + n := by omega
      rw [h]
    · by_cases hp : p = index + n
      · subst hp
        rw [getD_set_self _ _ _ _ (by rw [hsl]; omega), ihtemp]
        split_ifs <;> first | rfl | (exfalso; omega)
      · rw [getD_set_ne _ _ _ _ _ (by omega : index + n ≠ p), iharr p]
        split_ifs <;> first | rfl | (exfalso; omega)

theorem growPass_spec {α : Type} [Inhabited α] (old : List α) (index newcap : Nat) :
    ∀ m, m < newcap →
      ((growPass old index newcap m).2 = if m ≤ index then m else m + 1) ∧
      (∀ p, (growPass old index newcap m).1.getD p default =
        if p < m ∧ p < index then old.getD p default
        else if index < p ∧ p ≤ m then old.getD (p - 1) default
        else default) := by
  intro m
  induction m with
  | zero =>
    intro _
    rw [growPass_zero]
    refine ⟨by rw [if_pos (Nat.zero_le index)], fun p => ?_⟩
    rw [getD_replicate]
    split_ifs <;> first | rfl | (exfalso; omega)
  | succ m ih =>
    intro hm
    obtain ⟨ihj, iharr⟩ := ih (by omega)
    have hgl : (growPass old index newcap m).1.length = newcap :=
      growPass_length old index newcap m
    simp only [growPass_succ]
    rw [ihj]
    refine ⟨by split_ifs <;> omega, fun p => ?_⟩
    by_cases hmi : m < index
    · have hq : (if m = index then (if m ≤ index then m else m + 1) + 1
          else if m ≤ index then m else m + 1) = m := by
        split_ifs <;> omega
      rw [hq]
      by_cases hp : p = m
      · subst hp
        rw [getD_set_self _ _ _ _ (by rw [hgl]; omega)]
        split_ifs <;> first | rfl | (exfalso; omega)
      · rw [getD_set_ne _ _ _ _ _ (by omega : m ≠ p), iharr p]
        split_ifs <;> first | rfl | (exfalso; omega)
    · have hq : (if m = index then (if m ≤ index then m else m + 1) + 1
          else if m ≤ index then m else m + 1) = m + 1 := by
        split_ifs <;> omega
      rw [hq]
      by_cases hp : p = m + 1
      · subst hp
        rw [getD_set_self _ _ _ _ (by rw [hgl]; omega)]
        simp only [Nat.add_sub_cancel]
        split_ifs <;> first | rfl | (exfalso; omega)
      · rw [getD_set_ne _ _ _ _ _ (by omega : m + 1 ≠ p), iharr p]
        split_ifs <;> first | rfl | (exfalso; omega)

theorem siftPass_spec {α : Type} [Inhabited α] (index : Nat) (old : List α) :
    ∀ n, index + n < old.length →
      ∀ p, (siftPass index n (old.set index default)).getD p default =
        if index ≤ p ∧ p < index + n then old.getD (p + 1) default
        else if p = index + n then default
        else old.getD p default := by
  intro n
  induction n with
  | zero =>
    intro h p
    rw [siftPass_zero]
    by_cases hp : p = index
    · subst hp
      rw [getD_set_self _ _ _ _ (by omega)]
      split_ifs <;> first | rfl | (exfalso; omega)
    · rw [getD_set_ne _ _ _ _ _ (by omega : index ≠ p)]
      split_ifs <;> first | rfl | (exfalso; omega)
  | succ n ih =>
    intro h
    have ih' := ih (by omega)
    have hl : (siftPass index n (old.set index default)).length
        = (old.set index default).length := siftPass_length _ _ _
    have hx : (siftPass index n (old.set index default)).getD (index + n) default
        = default := by
      rw [ih' (index + n)]
      split_ifs <;> first | rfl | (exfalso; omega)
    have hy : (siftPass index n (old.set index default)).getD (index + n + 1) default
        = old.getD (index + n + 1) default := by
      rw [ih' (index + n + 1)]
      split_ifs <;> first | rfl | (exfalso; omega)
    intro p
    simp only [siftPass_succ]
    rw [hx, hy]
    by_cases hp1 : p = index + n + 1
    · subst hp1
      rw [getD_set_self _ _ _ _
        (by rw [List.length_set, hl, List.length_set]; omega)]
      split_ifs <;> first | rfl | (exfalso; omega)
    · rw [getD_set_ne _ _ _ _ _ (by omega : index + n + 1 ≠ p)]
      by_cases hp2 : p = index + n
      · subst hp2
        rw [getD_set_self _ _ _ _ (by rw [hl, List.length_set]; omega)]
        split_ifs <;> first | rfl | (exfalso; omega)
      · rw [getD_set_ne _ _ _ _ _ (by omega : index + n ≠ p), ih' p]
        split_ifs <;> first | rfl | (exfalso; omega)

/-! ## Well-formedness preservation -/

theorem wf_construct {α : Type} [Inhabited α] (size : Nat) :
    (dynarray.construct α size).WF :=
  ⟨List.length_replicate size _, Nat.le_refl size⟩

theorem wf_set_element {α : Type} (a : dynarray α) (index : Nat) (element : α)
    (h : a.WF) : (a.set_element index element).2.WF := by
  unfold dynarray.set_element
  split
  · exact ⟨by rw [List.length_set]; exact h.1, h.2⟩
  · exact h

theorem wf_insert_element {α : Type} [Inhabited α] (a : dynarray α) (index : Nat)
    (element : α) (h : a.WF) : (a.insert_element index element).2.WF := by
  unfold dynarray.insert_element
  split
  · split
    · refine ⟨?_, ?_⟩
      · show ((growPass a.mp_array index
            (if a.m_capacity = 0 then 1 else 2 * a.m_capacity) a.m_capacity).1.set
              index element).length
            = (if a.m_capacity = 0 then 1 else 2 * a.m_capacity)
        rw [List.length_set, growPass_length]
      · show a.m_size + 1 ≤ (if a.m_capacity = 0 then 1 else 2 * a.m_capacity)
        rename_i hle hfull
        rcases Nat.eq_zero_or_pos a.m_capacity with hc | hc
        · rw [if_pos hc]; omega
        · rw [if_neg (by omega)]; omega
    · refine ⟨?_, ?_⟩
      · show (shiftPass index (a.m_size + 1 - index) a.mp_array element).1.length
            = a.m_capacity
        rw [shiftPass_length]; exact h.1
      · show a.m_size + 1 ≤ a.m_capacity
        rename_i hle hnful
        have := h.2
        omega
  · exact h

theorem wf_delete_element {α : Type} [Inhabited α] (a : dynarray α) (index : Nat)
    (h : a.WF) : (a.delete_element index).2.WF := by
  unfold dynarray.delete_element
  split
  · refine ⟨?_, ?_⟩
    · show (siftPass index (a.m_size - 1 - index) (a.mp_array.set index default)).length
          = a.m_capacity
      rw [siftPass_length, List.length_set]; exact h.1
    · show a.m_size - 1 ≤ a.m_capacity
      have := h.2; omega
  · exact h

/-! ## Branch equations and access helpers -/

theorem insert_element_grow_eq {α : Type} [Inhabited α] (a : dynarray α) (i : Nat)
    (v : α) (hi : i ≤ a.m_size) (hfull : a.m_size = a.m_capacity) :
    a.insert_element i v =
      (true,
        { mp_array := (growPass a.mp_array i
            (if a.m_capacity = 0 then 1 else 2 * a.m_capacity) a.m_capacity).1.set i v
          m_capacity := if a.m_capacity = 0 then 1 else 2 * a.m_capacity
          m_size := a.m_size + 1 }) := by
  unfold dynarray.insert_element
  rw [if_pos hi, if_pos hfull]

theorem insert_element_spare_eq {α : Type} [Inhabited α] (a : dynarray α) (i : Nat)
    (v : α) (hi : i ≤ a.m_size) (hnful : ¬a.m_size = a.m_capacity) :
    a.insert_element i v =
      (true,
        { a with mp_array := (shiftPass i (a.m_size + 1 - i) a.mp_array v).1
                 m_size := a.m_size + 1 }) := by
  unfold dynarray.insert_element
  rw [if_pos hi, if_neg hnful]

theorem delete_element_eq {α : Type} [Inhabited α] (a : dynarray α) (i : Nat)
    (hi : i < a.m_size) :
    a.delete_element i =
      (true,
        { a with mp_array := siftPass i (a.m_size - 1 - i) (a.mp_array.set i default)
                 m_size := a.m_size - 1 }) := by
  unfold dynarray.delete_element
  rw [if_pos ⟨by omega, hi⟩]

theorem get_element_mk {α : Type} [Inhabited α] (l : List α) (c s k : Nat) :
    dynarray.get_element { mp_array := l, m_capacity := c, m_size := s } k =
      if k < s then l.getD k default else default :=
  rfl

theorem get_element_in_range {α : Type} [Inhabited α] (a : dynarray α) (k : Nat)
    (h : k < a.m_size) : a.get_element k = a.mp_array.getD k default := by
  unfold dynarray.get_element
  rw [if_pos h]

theorem wf_applyOp {α : Type} [Inhabited α] (a : dynarray α) (op : DynOp α)
    (h : a.WF) : (applyOp a op).WF := by
  cases op with
  | set index element => exact wf_set_element a index element h
  | insert index element => exact wf_insert_element a index element h
  | delete index => exact wf_delete_element a index h

theorem wf_foldl {α : Type} [Inhabited α] (ops : List (DynOp α)) :
    ∀ a : dynarray α, a.WF → (ops.foldl applyOp a).WF := by
  induction ops with
  | nil => intro a h; exact h
  | cons op ops ih => intro a h; exact ih (applyOp a op) (wf_applyOp a op h)

theorem runOps_wf {α : Type} [Inhabited α] (size : Nat) (ops : List (DynOp α)) :
    (runOps size ops).WF :=
  wf_foldl ops (dynarray.construct α size) (wf_construct size)

theorem growPassChecked_succ {α : Type} [Inhabited α] (old : List α)
    (index newcap m : Nat) :
    growPassChecked old index newcap (m + 1) =
      (growPassChecked old index newcap m).bind fun st =>
        (old[m]?).bind fun v =>
          (setChecked st.1 (if m = index then st.2 + 1 else st.2) v).map
            fun l => (l, (if m = index then st.2 + 1 else st.2) + 1) := by
  unfold growPassChecked
  rw [List.range_succ, List.foldl_append]
  rfl

theorem shiftPassChecked_succ {α : Type} [Inhabited α] (index n : Nat) (arr : List α)
    (element : α) :
    shiftPassChecked index (n + 1) arr element =
      (shiftPassChecked index n arr element).bind fun st =>
        (st.1[index + n]?).bind fun v =>
          (setChecked st.1 (index + n) st.2).map fun l => (l, v) := by
  unfold shiftPassChecked
  rw [List.range'_concat, Nat.one_mul, List.foldl_append]
  rfl

theorem siftPassChecked_succ {α : Type} [Inhabited α] (index n : Nat) (arr : List α) :
    siftPassChecked index (n + 1) arr =
      (siftPassChecked index n arr).bind fun a =>
        (a[index + n]?).bind fun x =>
          (a[index + n + 1]?).bind fun y =>
            (setChecked a (index + n) y).bind fun l => setChecked l (index + n + 1) x := by
  unfold siftPassChecked
  rw [List.range'_concat, Nat.one_mul, List.foldl_append]
  rfl

theorem growPassChecked_eq {α : Type} [Inhabited α] (old : List α) (index newcap : Nat) :
    ∀ m, m ≤ old.length → m < newcap →
      growPassChecked old index newcap m = some (growPass old index newcap m) := by
  intro m
  induction m with
  | zero => intro _ _; rfl
  | succ m ih =>
    intro hm1 hm2
    obtain ⟨hj, _⟩ := growPass_spec old index newcap m (by omega)
    have hl := growPass_length old index newcap m
    have hcond : (if m = index then (growPass old index newcap m).2 + 1
        else (growPass old index newcap m).2) < (growPass old index newcap m).1.length := by
      rw [hl, hj]; split_ifs <;> omega
    rw [growPassChecked_succ, ih (by omega) (by omega), Option.some_bind,
      getElem?_eq_some_getD old m default (by omega), Option.some_bind]
    unfold setChecked
    rw [if_pos hcond, Option.map_some', growPass_succ]

theorem shiftPassChecked_eq {α : Type} [Inhabited α] (index : Nat) (arr : List α)
    (element : α) :
    ∀ n, index + n ≤ arr.length →
      shiftPassChecked index n arr element = some (shiftPass index n arr element) := by
  intro n
  induction n with
  | zero => intro _; rfl
  | succ n ih =>
    intro hn
    have hl := shiftPass_length index arr element n
    rw [shiftPassChecked_succ, ih (by omega), Option.some_bind,
      getElem?_eq_some_getD _ (index + n) default (by rw [hl]; omega),
      Option.some_bind]
    have hcond : index + n < (shiftPass index n arr element).1.length := by
      rw [hl]; omega
    unfold setChecked
    rw [if_pos hcond, Option.map_some', shiftPass_succ]

theorem siftPassChecked_eq {α : Type} [Inhabited α] (index : Nat) (arr : List α) :
    ∀ n, index + n < arr.length →
      siftPassChecked index n arr = some (siftPass index n arr) := by
  intro n
  induction n with
  | zero => intro _; rfl
  | succ n ih =>
    intro hn
    have hl := siftPass_length index arr n
    rw [siftPassChecked_succ, ih (by omega), Option.some_bind,
      getElem?_eq_some_getD _ (index + n) default (by rw [hl]; omega),
      Option.some_bind,
      getElem?_eq_some_getD _ (index + n + 1) default (by rw [hl]; omega),
      Option.some_bind]
    have hc1 : index + n < (siftPass index n arr).length := by
      rw [hl]; omega
    have hc2 : index + n + 1 <
        ((siftPass index n arr).set (index + n)
          ((siftPass index n arr).getD (index + n + 1) default)).length := by
      rw [List.length_set, hl]; omega
    unfold setChecked
    rw [if_pos hc1, Option.some_bind, if_pos hc2, siftPass_succ]

/-- Member `get_element` with its single backing-store read checked. -/
def dynarray.get_element_checked {α : Type} [Inhabited α] (a : dynarray α)
    (index : Nat) : Option α :=
  if index < a.m_size then a.mp_array[index]? else some default

/-- Member `set_element` with its single backing-store write checked. -/
def dynarray.set_element_checked {α : Type} (a : dynarray α) (index : Nat)
    (element : α) : Option (Bool × dynarray α) :=
  if index < a.m_size then
    (setChecked a.mp_array index element).map
      fun l => (true, { a with mp_array := l })
  else some (false, a)

/-- Member `insert_element` with every backing-store access of both branches
checked (the growth-path copy loop against the new capacity, and the in-place
shift loop). -/
def dynarray.insert_element_checked {α : Type} [Inhabited α] (a : dynarray α)
    (index : Nat) (element : α) : Option (Bool × dynarray α) :=
  if index ≤ a.m_size then
    if a.m_size = a.m_capacity then
      (growPassChecked a.mp_array index
          (if a.m_capacity = 0 then 1 else 2 * a.m_capacity) a.m_capacity).bind
        fun copied =>
          (setChecked copied.1 index element).map fun l =>
            (true, { mp_array := l
                     m_capacity := if a.m_capacity = 0 then 1 else 2 * a.m_capacity
                     m_size := a.m_size + 1 })
    else
      (shiftPassChecked index (a.m_size + 1 - index) a.mp_array element).map
        fun shifted => (true, { a with mp_array := shifted.1, m_size := a.m_size + 1 })
  else some (true, a)

/-- Member `delete_element` with every backing-store access checked (the
clearing write and the shift loop's reads and writes). -/
def dynarray.delete_element_checked {α : Type} [Inhabited α] (a : dynarray α)
    (index : Nat) : Option (Bool × dynarray α) :=
  if a.m_size > 0 ∧ index < a.m_size then
    (setChecked a.mp_array index default).bind fun cleared =>
      (siftPassChecked index (a.m_size - 1 - index) cleared).map fun sifted =>
        (true, { a with mp_array := sifted, m_size := a.m_size - 1 })
  else some (false, a)

/-! ## Claim theorems -/

/-- Claim C1: for every well-formed typed container and every valid index
`i ≤ logical_size` and value `v`, `insert_element i v` succeeds (returns
true), after it `get_element i` returns `v`, every element previously at a
position `k < i` is unchanged at position `k`, and every element previously
at a position `k ≥ i` is now retrievable at position `k + 1`. -/
theorem insert_then_get_roundtrip {α : Type} [Inhabited α] (a : dynarray α)
    (i : Nat) (v : α) (hwf : a.WF) (hi : i ≤ a.m_size) :
    (a.insert_element i v).1 = true ∧
    (a.insert_element i v).2.get_element i = v ∧
    (∀ k, k < i → (a.insert_element i v).2.get_element k = a.get_element k) ∧
    (∀ k, i ≤ k → k < a.m_size →
      (a.insert_element i v).2.get_element (k + 1) = a.get_element k) := by
  obtain ⟨hlen, hsc⟩ := hwf
  by_cases hfull : a.m_size = a.m_capacity
  · have hcap : a.m_capacity < (if a.m_capacity = 0 then 1 else 2 * a.m_capacity) := by
      rcases Nat.eq_zero_or_pos a.m_capacity with hc | hc
      · rw [if_pos hc]; omega
      · rw [if_neg (by omega)]; omega
    obtain ⟨hj, harr⟩ := growPass_spec a.mp_array i
      (if a.m_capacity = 0 then 1 else 2 * a.m_capacity) a.m_capacity hcap
    have hbl := growPass_length a.mp_array i
      (if a.m_capacity = 0 then 1 else 2 * a.m_capacity) a.m_capacity
    rw [insert_element_grow_eq a i v hi hfull]
    dsimp only
    refine ⟨rfl, ?_, ?_, ?_⟩
    · rw [get_element_mk, if_pos (by omega : i < a.m_size + 1),
        getD_set_self _ _ _ _ (by rw [hbl]; omega)]
    · intro k hk
      rw [get_element_mk, if_pos (by omega : k < a.m_size + 1),
        getD_set_ne _ _ _ _ _ (by omega : i ≠ k), harr k,
        get_element_in_range a k (by omega)]
      split_ifs <;> first | rfl | (exfalso; omega)
    · intro k hik hks
      rw [get_element_mk, if_pos (by omega : k + 1 < a.m_size + 1),
        getD_set_ne _ _ _ _ _ (by omega : i ≠ k + 1), harr (k + 1),
        get_element_in_range a k hks]
      simp only [Nat.add_sub_cancel]
      split_ifs <;> first | rfl | (exfalso; omega)
  · obtain ⟨htemp, harr⟩ := shiftPass_spec i a.mp_array v (a.m_size + 1 - i) (by omega)
    rw [insert_element_spare_eq a i v hi hfull]
    dsimp only
    refine ⟨rfl, ?_, ?_, ?_⟩
    · rw [get_element_mk, if_pos (by omega : i < a.m_size + 1), harr i,
        if_pos (by omega : i = i ∧ a.m_size + 1 - i ≠ 0)]
    · intro k hk
      rw [get_element_mk, if_pos (by omega : k < a.m_size + 1), harr k,
        get_element_in_range a k (by omega)]
      split_ifs <;> first | rfl | (exfalso; omega)
    · intro k hik hks
      rw [get_element_mk, if_pos (by omega : k + 1 < a.m_size + 1), harr (k + 1),
        get_element_in_range a k hks]
      simp only [Nat.add_sub_cancel]
      split_ifs <;> first | rfl | (exfalso; omega)

/-- Claim C4: for every well-formed typed container of logical size `s > 0`
and every index `i < s`, `delete_element i` returns true, yields logical size
`s - 1`, every element previously at a position `> i` is now at its old
position minus 1 (and positions `< i` are unchanged), and every surviving
position holds an element that originated from a pre-deletion position other
than `i` — the occurrence previously at `i` is no longer retrievable. -/
theorem delete_element_shifts_left {α : Type} [Inhabited α] (a : dynarray α) (i : Nat)
    (hwf : a.WF) (hi : i < a.m_size) :
    (a.delete_element i).1 = true ∧
    (a.delete_element i).2.m_size = a.m_size - 1 ∧
    (∀ k, k < i → (a.delete_element i).2.get_element k = a.get_element k) ∧
    (∀ k, i ≤ k → k < a.m_size - 1 →
      (a.delete_element i).2.get_element k = a.get_element (k + 1)) ∧
    (∀ k, k < a.m_size - 1 → ∃ j, j < a.m_size ∧ j ≠ i ∧
      (a.delete_element i).2.get_element k = a.get_element j) := by
  obtain ⟨hlen, hsc⟩ := hwf
  have harr := siftPass_spec i a.mp_array (a.m_size - 1 - i) (by omega)
  rw [delete_element_eq a i hi]
  dsimp only
  refine ⟨rfl, rfl, ?_, ?_, ?_⟩
  · intro k hk
    rw [get_element_mk, if_pos (by omega : k < a.m_size - 1), harr k,
      get_element_in_range a k (by omega)]
    split_ifs <;> first | rfl | (exfalso; omega)
  · intro k hik hks
    rw [get_element_mk, if_pos (by omega : k < a.m_size - 1), harr k,
      get_element_in_range a (k + 1) (by omega)]
    split_ifs <;> first | rfl | (exfalso; omega)
  · intro k hk
    by_cases hki : k < i
    · refine ⟨k, by omega, by omega, ?_⟩
      rw [get_element_mk, if_pos (by omega : k < a.m_size - 1), harr k,
        get_element_in_range a k (by omega)]
      split_ifs <;> first | rfl | (exfalso; omega)
    · refine ⟨k + 1, by omega, by omega, ?_⟩
      rw [get_element_mk, if_pos (by omega : k < a.m_size - 1), harr k,
        get_element_in_range a (k + 1) (by omega)]
      split_ifs <;> first | rfl | (exfalso; omega)

/-- Claim C10: on every well-formed typed container state (logical size at
most capacity, backing store of exactly capacity slots), the Option-valued
embedding in which every backing-store read and write is bounds-checked never
takes an out-of-bounds branch in `get_element`, `set_element`,
`insert_element` (both the in-place shift loop and the growth-path copy loop,
the latter against the new capacity) or `delete_element`: each checked
operation returns `some` of the unchecked result. -/
theorem checked_ops_in_bounds {α : Type} [Inhabited α] (a : dynarray α)
    (index : Nat) (element : α) (hwf : a.WF) :
    a.get_element_checked index = some (a.get_element index) ∧
    a.set_element_checked index element = some (a.set_element index element) ∧
    a.insert_element_checked index element = some (a.insert_element index element) ∧
    a.delete_element_checked index = some (a.delete_element index) := by
  obtain ⟨hlen, hsc⟩ := hwf
  refine ⟨?_, ?_, ?_, ?_⟩
  · unfold dynarray.get_element_checked dynarray.get_element
    by_cases h : index < a.m_size
    · simp only [if_pos h]
      exact getElem?_eq_some_getD a.mp_array index default (by omega)
    · simp only [if_neg h]
  · unfold dynarray.set_element_checked dynarray.set_element setChecked
    by_cases h : index < a.m_size
    · simp only [if_pos h, if_pos (by omega : index < a.mp_array.length),
        Option.map_some']
    · simp only [if_neg h]
  · unfold dynarray.insert_element_checked dynarray.insert_element
    by_cases h1 : index ≤ a.m_size
    · by_cases h2 : a.m_size = a.m_capacity
      · have hcap : a.m_capacity <
            (if a.m_capacity = 0 then 1 else 2 * a.m_capacity) := by
          rcases Nat.eq_zero_or_pos a.m_capacity with hc | hc
          · rw [if_pos hc]; omega
          · rw [if_neg (by omega)]; omega
        have hbl := growPass_length a.mp_array index
          (if a.m_capacity = 0 then 1 else 2 * a.m_capacity) a.m_capacity
        have hcond : index < (growPass a.mp_array index
            (if a.m_capacity = 0 then 1 else 2 * a.m_capacity) a.m_capacity).1.length := by
          rw [hbl]; omega
        simp only [if_pos h1, if_pos h2]
        rw [growPassChecked_eq a.mp_array index
            (if a.m_capacity = 0 then 1 else 2 * a.m_capacity) a.m_capacity
            (by omega) hcap,
          Option.some_bind]
        unfold setChecked
        rw [if_pos hcond, Option.map_some']
      · simp only [if_pos h1, if_neg h2]
        rw [shiftPassChecked_eq index a.mp_array element (a.m_size + 1 - index)
            (by omega),
          Option.map_some']
    · simp only [if_neg h1]
  · unfold dynarray.delete_element_checked dynarray.delete_element
    by_cases h : a.m_size > 0 ∧ index < a.m_size
    · simp only [if_pos h]
      unfold setChecked
      rw [if_pos (by omega : index < a.mp_array.length), Option.some_bind,
        siftPassChecked_eq index (a.mp_array.set index default) (a.m_size - 1 - index)
          (by rw [List.length_set]; omega),
        Option.map_some']
    · simp only [if_neg h]

/-- Claim C5 counterexample: on a typed container of logical size 2, inserting
at the out-of-range index 3 returns `true` (not `false` as claimed) while
leaving the container unchanged. -/
theorem insert_out_of_range_returns_true_cex :
    ((dynarray.construct Nat 2).insert_element 3 7).1 = true ∧
    ((dynarray.construct Nat 2).insert_element 3 7).2 = dynarray.construct Nat 2 := by
  constructor
  · rfl
  · rfl

/-- Claim C5 (amended): for every typed container and every index strictly
greater than the logical size, `insert_element` leaves the container
(capacity, logical size and all stored elements) unchanged, but returns
`true`: the only `false` return of the source is the reallocation-failure
branch, and the out-of-range case falls through to the final `return true`. -/
theorem insert_out_of_range_noop_true {α : Type} [Inhabited α] (a : dynarray α)
    (index : Nat) (element : α) (h : a.m_size < index) :
    a.insert_element index element = (true, a) := by
  unfold dynarray.insert_element
  rw [if_neg (by omega)]

/-- Witness for `insert_out_of_range_noop_true` at a container of size 2 and
index 3. -/
theorem insert_out_of_range_noop_true_witness :
    (dynarray.construct Nat 2).m_size < 3 ∧
    (dynarray.construct Nat 2).insert_element 3 7 = (true, dynarray.construct Nat 2) :=
  ⟨by decide, insert_out_of_range_noop_true (dynarray.construct Nat 2) 3 7 (by decide)⟩

/-- Claim C7: for every typed container and every index at or above the
logical size, `get_element` returns the default-valued element of the element
type (the value of the default-initialized local `T retVal` that the guarded
read never overwrites). -/
theorem get_element_out_of_range_default {α : Type} [Inhabited α] (a : dynarray α)
    (index : Nat) (h : a.m_size ≤ index) :
    a.get_element index = default := by
  unfold dynarray.get_element
  rw [if_neg (by omega)]

/-- Witness for `get_element_out_of_range_default` at a container of size 2
and index 5. -/
theorem get_element_out_of_range_default_witness :
    (dynarray.construct Nat 2).m_size ≤ 5 ∧
    (dynarray.construct Nat 2).get_element 5 = default :=
  ⟨by decide, get_element_out_of_range_default (dynarray.construct Nat 2) 5 (by decide)⟩

/-- Claim C8 counterexample: a reachable opaque container (created with 2
slots, then grown by one full-array insertion to capacity 4 and logical size
3) accepts `set_element` at index 3, which is at (not below) the logical
size: the source checks `index < capacity`, not `index < logical_size`. -/
theorem cset_bound_is_capacity_cex :
    ((((init_array Nat 2 4).insert_element 0 9).2).set_element 3 7).1 = true ∧
    ¬(3 < (((init_array Nat 2 4).insert_element 0 9).2).logical_size) := by
  constructor
  · decide
  · decide

/-- Claim C8 (amended): for every (non-null) opaque container handle,
`set_element` and `get_element` succeed if and only if the index is strictly
below the CAPACITY (not the logical size): both functions bound-check against
`capacity`. -/
theorem cset_get_bound_iff_capacity {α : Type} [Inhabited α]
    (m : DYNARRAY_METADATA α) (index : Nat) (p_data : α) :
    ((m.set_element index p_data).1 = true ↔ index < m.capacity) ∧
    ((m.get_element index).isSome = true ↔ index < m.capacity) := by
  constructor
  · unfold DYNARRAY_METADATA.set_element
    by_cases h : index < m.capacity
    · simp [h]
    · simp [h]
  · unfold DYNARRAY_METADATA.get_element
    by_cases h : index < m.capacity
    · simp [h]
    · simp [h]

/-- Claim C2 (code bug evidence): an opaque container with spare capacity
(capacity 10, logical size 6 — exactly the state the repository's own test
`CInterface.InsertOperations` reaches before its index-3 insertion, which it
expects to succeed): `insert_element` at index 3 returns `false` and changes
nothing, because the spare-capacity branch of the source contains only a
comment and no code. -/
theorem cinsert_spare_capacity_noop_eval :
    DYNARRAY_METADATA.insert_element
      { capacity := 10, element_size := 4, logical_size := 6
        p_backing_array := [250, 1, 2, 3, 4, 5, 0, 0, 0, 0] } 3 251 =
      (false,
        { capacity := 10, element_size := 4, logical_size := 6
          p_backing_array := [250, 1, 2, 3, 4, 5, 0, 0, 0, 0] }) := by
  rfl

/-- Claim C3 (code bug evidence): `delete_element` of the opaque container is
a stub whose body is `return false;`, so deleting index 0 from a freshly
created one-element container returns `false` and leaves the container
unchanged, contrary to the documented clear/left-shift/decrement contract. -/
theorem cdelete_stub_eval :
    DYNARRAY_METADATA.delete_element (init_array Nat 1 4) 0 =
      (false, init_array Nat 1 4) := by
  rfl

/-- Claim C6 (code bug evidence): growth-path insertion into the middle of a
full opaque container `[1, 2, 3, 4]` at index 2. The head copy transfers
`index - 1 = 1` element instead of `index = 2`, losing the element `2`, and
the tail copy starts at source slot `index + 1` instead of `index` (with an
overlong length), so the element previously at position 1 now reads back as
the calloc zero instead of 2, refuting the claimed relocation contract. -/
theorem cresize_middle_insert_drops_element_eval :
    DYNARRAY_METADATA.insert_element
      { capacity := 4, element_size := 4, logical_size := 4
        p_backing_array := [1, 2, 3, 4] } 2 9 =
      (true,
        { capacity := 8, element_size := 4, logical_size := 5
          p_backing_array := [1, 0, 9, 4, 0, 0, 0, 0] }) ∧
    DYNARRAY_METADATA.get_element
      (DYNARRAY_METADATA.insert_element
        { capacity := 4, element_size := 4, logical_size := 4
          p_backing_array := [1, 2, 3, 4] } 2 9).2 1 = some 0 := by
  constructor
  · rfl
  · rfl

/-- Claim C9: for every typed container state reachable from construction by
any sequence of `set_element`, `insert_element` and `delete_element` calls,
the logical size never exceeds the capacity. -/
theorem size_le_capacity_reachable {α : Type} [Inhabited α] (size : Nat)
    (ops : List (DynOp α)) :
    (runOps size ops).m_size ≤ (runOps size ops).m_capacity :=
  (runOps_wf size ops).2

/-- Witness for `insert_then_get_roundtrip` on the full container `[1, 2, 3]`
with insertion of 9 at index 1 (growth branch). -/
theorem insert_then_get_roundtrip_witness :
    sample_full.WF ∧ 1 ≤ sample_full.m_size ∧
    ((sample_full.insert_element 1 9).1 = true ∧
      (sample_full.insert_element 1 9).2.get_element 1 = 9 ∧
      (∀ k, k < 1 →
        (sample_full.insert_element 1 9).2.get_element k = sample_full.get_element k) ∧
      (∀ k, 1 ≤ k → k < sample_full.m_size →
        (sample_full.insert_element 1 9).2.get_element (k + 1)
          = sample_full.get_element k)) :=
  ⟨⟨rfl, by decide⟩, by decide,
    insert_then_get_roundtrip sample_full 1 9 ⟨rfl, by decide⟩ (by decide)⟩

/-- Witness for `delete_element_shifts_left` on the container `[1, 2, 3]`
deleting index 1. -/
theorem delete_element_shifts_left_witness :
    sample_full.WF ∧ 1 < sample_full.m_size ∧
    ((sample_full.delete_element 1).1 = true ∧
      (sample_full.delete_element 1).2.m_size = sample_full.m_size - 1 ∧
      (∀ k, k < 1 →
        (sample_full.delete_element 1).2.get_element k = sample_full.get_element k) ∧
      (∀ k, 1 ≤ k → k < sample_full.m_size - 1 →
        (sample_full.delete_element 1).2.get_element k
          = sample_full.get_element (k + 1)) ∧
      (∀ k, k < sample_full.m_size - 1 → ∃ j, j < sample_full.m_size ∧ j ≠ 1 ∧
        (sample_full.delete_element 1).2.get_element k = sample_full.get_element j)) :=
  ⟨⟨rfl, by decide⟩, by decide,
    delete_element_shifts_left sample_full 1 ⟨rfl, by decide⟩ (by decide)⟩

/-- Witness for `checked_ops_in_bounds` on the spare-capacity container
`[1, 2]` (capacity 3) at index 1 with element 9. -/
theorem checked_ops_in_bounds_witness :
    sample_spare.WF ∧
    (sample_spare.get_element_checked 1 = some (sample_spare.get_element 1) ∧
      sample_spare.set_element_checked 1 9 = some (sample_spare.set_element 1 9) ∧
      sample_spare.insert_element_checked 1 9 = some (sample_spare.insert_element 1 9) ∧
      sample_spare.delete_element_checked 1 = some (sample_spare.delete_element 1)) :=
  ⟨⟨rfl, by decide⟩, checked_ops_in_bounds sample_spare 1 9 ⟨rfl, by decide⟩⟩
